import Mathlib

/-!
Verification development for the bfetch batched-streaming server plugin and the
filter saved-object reference transforms.

The development shallowly embeds two source units:

* the `BfetchServerPlugin` class (compression toggle, streaming headers,
  streaming-response route, batch-processing route); collaborators that are
  imported by the plugin but whose code is not part of the sources
  (`map$` from `@kbn/std`, `normalizeError` from `../common`, `createStream`
  from `./streaming`) are modelled from the specification, as marked in the
  corresponding doc comments;
* `extractFilterReferences` / `injectFilterReferences` from the filter
  persistence utility.
-/

namespace Bfetch

/-- An arbitrary JavaScript value thrown by (or used to reject) a batch-item
handler.  The constructors cover the shape classes that matter to error
normalization: nullish values, `Error`-like objects carrying a `message`,
plain strings, and other primitives. -/
inductive JsVal where
  | nullish : JsVal
  | errObj : String → JsVal
  | str : String → JsVal
  | num : Int → JsVal
deriving DecidableEq, Repr

/-- The fixed error shape sent over the wire (`ErrorLike` in the source):
always a record with a string `message`. -/
structure ErrorLike where
  message : String
deriving DecidableEq, Repr

/-- Modelled from the spec: `normalizeError` (imported by the plugin from
`../common`, whose code is not among the sources) is a total projection of an
arbitrary thrown value to the fixed shape `ErrorLike` — "arbitrary thrown
values of unknown shape must be captured by a projection function returning a
fixed-shape error record ... a total function (never itself fails) over any
value". -/
def normalizeError : JsVal → ErrorLike
  | JsVal.nullish => { message := "Unknown error." }
  | JsVal.errObj m => { message := m }
  | JsVal.str s => { message := s }
  | JsVal.num n => { message := toString n }

/-- One response record of the batch route (`BatchResponseItem` in the source).
JavaScript emits either `\x7b id, result \x7d` or `\x7b id, error \x7d`; the two optional
fields model the presence or absence of the corresponding object properties. -/
structure BatchResponseItem (R E : Type) where
  id : Nat
  result : Option R
  error : Option E
deriving DecidableEq, Repr

/-- The async arrow function passed to `map$` inside
`addBatchProcessingRoute` (source lines 262–269): run `onBatchItem` on the
item; on success return `\x7b id, result \x7d`, on a thrown/rejected failure catch it
and return `\x7b id, error: normalizeError(error) \x7d`.  A handler settlement is an
`Except`: `ok` for fulfillment, `error` for rejection/throw. -/
def dispatchBatchItem {D R : Type} (onBatchItem : D → Except JsVal R)
    (batchItem : D) (id : Nat) : BatchResponseItem R ErrorLike :=
  match onBatchItem batchItem with
  | Except.ok result => { id := id, result := some result, error := none }
  | Except.error e => { id := id, result := none, error := some (normalizeError e) }

/-- Modelled from the spec: `map$` from `@kbn/std` (not among the sources)
starts the projection eagerly for every array element, passing the element and
its 0-based index, and emits each settled projection as soon as it completes.
The parameter `order` is the completion order of the per-item handlers, given
as the list of item indices in the order in which they settle; the emitted
sequence lists the settled results in exactly that order. -/
def mapS {D O : Type} (batch : List D) (f : D → Nat → O) (order : List Nat) : List O :=
  order.filterMap (fun i => (batch[i]?).map (fun d => f d i))

/-- The `getResponseStream` returned by the batch-processing route for a batch
body `\x7b batch \x7d` (source lines 261–269): `map$` over the batch with the
per-item dispatch function. -/
def getResponseStream {D R : Type} (onBatchItem : D → Except JsVal R)
    (batch : List D) (order : List Nat) : List (BatchResponseItem R ErrorLike) :=
  mapS batch (dispatchBatchItem onBatchItem) order

/-- Case-sensitive lookup of a request header, modelling JavaScript property
access `request.headers[name]` (absent property = `none`). -/
def headerValue (headers : List (String × String)) (name : String) : Option String :=
  (headers.find? (fun h => h.1 == name)).map Prod.snd

/-- `BfetchServerPlugin.getCompressionDisabled` (source lines 194–196):
`request.headers['x-chunk-encoding'] !== 'deflate'`. -/
def getCompressionDisabled (headers : List (String × String)) : Bool :=
  !(headerValue headers "x-chunk-encoding" == some "deflate")

/-- The constant response headers `streamingHeaders` (source lines 148–152). -/
def streamingHeaders : List (String × String) :=
  [("Content-Type", "application/x-ndjson"),
   ("Connection", "keep-alive"),
   ("Transfer-Encoding", "chunked")]

/-- Run-length encoding of a byte sequence: the compressing half of the
lossless codec that stands in for zlib deflate. -/
def rleEncode : List Nat → List (Nat × Nat)
  | [] => []
  | b :: rest =>
    match rleEncode rest with
    | [] => [(1, b)]
    | (n, b2) :: tail =>
      if b = b2 then (n + 1, b2) :: tail else (1, b) :: (n, b2) :: tail

/-- Run-length decoding, the inverse of `rleEncode`. -/
def rleDecode : List (Nat × Nat) → List Nat
  | [] => []
  | (n, b) :: tail => List.replicate n b ++ rleDecode tail

/-- Serialize run-length pairs to a flat byte sequence. -/
def rleFlatten (ps : List (Nat × Nat)) : List Nat :=
  ps.flatMap (fun p => [p.1, p.2])

/-- Parse a flat byte sequence back into run-length pairs. -/
def rleUnflatten : List Nat → List (Nat × Nat)
  | n :: b :: rest => (n, b) :: rleUnflatten rest
  | _ => []

/-- The code points of a string, as the byte-level view of the uncompressed
stream. -/
def stringToBytes (s : String) : List Nat :=
  s.data.map Char.toNat

/-- Rebuild a string from code points. -/
def bytesToString (bs : List Nat) : String :=
  String.mk (bs.map Char.ofNat)

/-- Modelled from the spec: the deflate compressor applied by the streaming
layer when compression is enabled — "a streaming compressor" that is lossless;
concretely a run-length codec over the code points. -/
def deflate (s : String) : List Nat :=
  rleFlatten (rleEncode (stringToBytes s))

/-- Decompression, the inverse of `deflate`. -/
def inflate (bs : List Nat) : String :=
  bytesToString (rleDecode (rleUnflatten bs))

/-- Modelled from the spec: the serializer inside `createStream` — "one JSON
object per line, newline as record delimiter"; each record is encoded by the
caller-fixed `encode` and terminated by a newline. -/
def serializeRecords {O : Type} (encode : O → String) (records : List O) : String :=
  String.join (records.map (fun r => encode r ++ "\n"))

/-- Modelled from the spec: `createStream` from `./streaming` (not among the
sources) — serialize the records one per line and, unless
`compressionDisabled` is set, pass the stream through the deflate
compressor. -/
def createStream {O : Type} (encode : O → String) (records : List O)
    (compressionDisabled : Bool) : List Nat :=
  if compressionDisabled then stringToBytes (serializeRecords encode records)
  else deflate (serializeRecords encode records)

/-- Split a response body into its newline-delimited records. -/
def parseLines (s : String) : List String :=
  s.splitOn "\n"

/-- An HTTP response as produced by the route handler: `response.ok`
carries status 200, explicit headers and a body. -/
structure HttpResponse where
  status : Nat
  headers : List (String × String)
  body : List Nat
deriving DecidableEq, Repr

/-- The request handler registered by `addStreamingResponseRoute` (source
lines 206–224): compute `compressionDisabled` from the request headers and
answer `response.ok` (HTTP 200) with `streamingHeaders` and the created
stream over the handler's response records. -/
def streamingResponseRoute {B O : Type} (encode : O → String)
    (getRespStream : B → List O) (requestHeaders : List (String × String))
    (requestBody : B) : HttpResponse :=
  { status := 200,
    headers := streamingHeaders,
    body := createStream encode (getRespStream requestBody)
      (getCompressionDisabled requestHeaders) }

/-- `addBatchProcessingRoute` (source lines 245–272): the streaming-response
route whose records come from `getResponseStream` over the request's batch. -/
def batchProcessingRoute {D R : Type} (encode : BatchResponseItem R ErrorLike → String)
    (onBatchItem : D → Except JsVal R) (order : List Nat)
    (requestHeaders : List (String × String)) (batch : List D) : HttpResponse :=
  streamingResponseRoute encode (fun b => getResponseStream onBatchItem b order)
    requestHeaders batch

end Bfetch

namespace Filters

/-- A saved-object reference (`SavedObjectReference` in the source). -/
structure SavedObjectReference where
  name : String
  type : String
  id : String
deriving DecidableEq, Repr

/-- The `meta` object of a filter.  The three fields the transforms touch are
explicit (`none` models an absent property); all other `meta` properties are
carried opaquely in `rest` and are preserved by object spreads. -/
structure FilterMeta where
  index : Option String
  indexRefName : Option String
  value : Option String
  rest : List (String × String)
deriving DecidableEq, Repr

/-- A filter: an optional `meta` object plus the remaining filter properties,
carried opaquely in `rest`. -/
structure Filter where
  meta : Option FilterMeta
  rest : List (String × String)
deriving DecidableEq, Repr

/-- The generated reference name `filter-index-pattern-$\x7bi\x7d`. -/
def refNameOf (i : Nat) : String :=
  "filter-index-pattern-" ++ Nat.repr i

/-- Decimal decoding of a digit-character list, folded from the left. -/
def decAux (acc : Nat) : List Char → Nat
  | [] => acc
  | c :: cs => decAux (acc * 10 + (c.toNat - 48)) cs

/-- The body of `filters.map((filterRow, i) => ...)` in
`extractFilterReferences` (source lines 16–38): a filter without `meta` or
without `meta.index` is returned unchanged and contributes no reference; a
filter with `meta.index` gets `indexRefName` set to the generated name while
`index` and `value` are deleted, and contributes the pushed reference. -/
def extractOne (i : Nat) (filterRow : Filter) : Filter × Option SavedObjectReference :=
  match filterRow.meta with
  | none => (filterRow, none)
  | some m =>
    match m.index with
    | none => (filterRow, none)
    | some idx =>
      ({ filterRow with
          meta := some { m with index := none, value := none,
                                indexRefName := some (refNameOf i) } },
       some { name := refNameOf i, type := "index-pattern", id := idx })

/-- Recursion over the filter list carrying the running array index `i`;
references are accumulated in the order `references.push` runs, i.e. in
ascending index order. -/
def extractGo (i : Nat) : List Filter → List Filter × List SavedObjectReference
  | [] => ([], [])
  | filterRow :: rest =>
    let head := extractOne i filterRow
    let tail := extractGo (i + 1) rest
    (head.1 :: tail.1, head.2.toList ++ tail.2)

/-- `extractFilterReferences` (source lines 12–41). -/
def extractFilterReferences (filters : List Filter) :
    List Filter × List SavedObjectReference :=
  extractGo 0 filters

/-- The body of `filters.map((filterRow) => ...)` in `injectFilterReferences`
(source lines 47–60): a filter without `meta` or without `meta.indexRefName`
is returned unchanged; otherwise the first reference whose `name` matches
`indexRefName` supplies the restored `meta.index`, and a missing reference
throws `Could not find reference for $\x7bindexRefName\x7d`. -/
def injectOne (references : List SavedObjectReference) (filterRow : Filter) :
    Except String Filter :=
  match filterRow.meta with
  | none => Except.ok filterRow
  | some m =>
    match m.indexRefName with
    | none => Except.ok filterRow
    | some rn =>
      match references.find? (fun ref => ref.name == rn) with
      | none => Except.error ("Could not find reference for " ++ rn)
      | some reference =>
        Except.ok { filterRow with
          meta := some { m with indexRefName := none, index := some reference.id } }

/-- `injectFilterReferences` (source lines 43–61); the JavaScript `map` with a
throwing callback propagates the first thrown error, which is exactly
`mapM` over `Except`. -/
def injectFilterReferences (filters : List Filter)
    (references : List SavedObjectReference) : Except String (List Filter) :=
  filters.mapM (injectOne references)

/-- The expected effect of the extract/inject round trip on a single filter:
a filter without `meta` or without `meta.index` is unchanged; a filter with
`meta.index` keeps its `index` and the untouched `meta` properties, while
`indexRefName` is absent and `value` has been deleted by the extraction. -/
def roundtripOne (f : Filter) : Filter :=
  match f.meta with
  | none => f
  | some m =>
    match m.index with
    | none => f
    | some idx =>
      { f with meta := some { index := some idx, indexRefName := none,
                              value := none, rest := m.rest } }

/-- A filter names a reference that the reference list does not contain. -/
def missingReference (references : List SavedObjectReference) (f : Filter) : Prop :=
  ∃ m, f.meta = some m ∧ ∃ rn, m.indexRefName = some rn ∧
    references.find? (fun ref => ref.name == rn) = none

end Filters

namespace Bfetch

theorem dispatchBatchItem_id {D R : Type} (onBatchItem : D → Except JsVal R)
    (d : D) (i : Nat) : (dispatchBatchItem onBatchItem d i).id = i := by
  unfold dispatchBatchItem
  cases onBatchItem d <;> rfl

theorem mapS_nil {D O : Type} (batch : List D) (f : D → Nat → O) :
    mapS batch f [] = [] := rfl

theorem mapS_cons_of_lt {D O : Type} (batch : List D) (f : D → Nat → O)
    (i : Nat) (rest : List Nat) (hi : i < batch.length) :
    mapS batch f (i :: rest) = f (batch.get ⟨i, hi⟩) i :: mapS batch f rest := by
  simp only [mapS, List.filterMap_cons, List.getElem?_eq_getElem hi,
    Option.map_some', List.get_eq_getElem]

theorem mapS_length {D O : Type} (batch : List D) (f : D → Nat → O)
    (order : List Nat) (h : ∀ i ∈ order, i < batch.length) :
    (mapS batch f order).length = order.length := by
  induction order with
  | nil => rfl
  | cons i rest ih =>
    have hi : i < batch.length := h i (List.mem_cons_self i rest)
    rw [mapS_cons_of_lt batch f i rest hi, List.length_cons, List.length_cons,
      ih (fun j hj => h j (List.mem_cons_of_mem i hj))]

theorem mapS_map_proj {D O : Type} (batch : List D) (f : D → Nat → O)
    (g : O → Nat) (hg : ∀ d i, g (f d i) = i)
    (order : List Nat) (h : ∀ i ∈ order, i < batch.length) :
    (mapS batch f order).map g = order := by
  induction order with
  | nil => rfl
  | cons i rest ih =>
    have hi : i < batch.length := h i (List.mem_cons_self i rest)
    rw [mapS_cons_of_lt batch f i rest hi, List.map_cons, hg,
      ih (fun j hj => h j (List.mem_cons_of_mem i hj))]

theorem mem_mapS {D O : Type} {batch : List D} {f : D → Nat → O}
    {order : List Nat} {x : O} (hx : x ∈ mapS batch f order) :
    ∃ i, i ∈ order ∧ ∃ hi : i < batch.length, x = f (batch.get ⟨i, hi⟩) i := by
  simp only [mapS, List.mem_filterMap] at hx
  obtain ⟨i, hmem, heq⟩ := hx
  rcases Option.map_eq_some'.1 heq with ⟨d, hd, hfd⟩
  rcases List.getElem?_eq_some_iff.1 hd with ⟨hi, hget⟩
  exact ⟨i, hmem, hi, by rw [← hfd, List.get_eq_getElem, hget]⟩

theorem mapS_mem_of_mem {D O : Type} (batch : List D) (f : D → Nat → O)
    {order : List Nat} {i : Nat} (hmem : i ∈ order) (hi : i < batch.length) :
    f (batch.get ⟨i, hi⟩) i ∈ mapS batch f order := by
  simp only [mapS, List.mem_filterMap]
  exact ⟨i, hmem, by simp [List.getElem?_eq_getElem hi]⟩

theorem rleDecode_rleEncode (l : List Nat) : rleDecode (rleEncode l) = l := by
  induction l with
  | nil => rfl
  | cons b rest ih =>
    simp only [rleEncode]
    cases hE : rleEncode rest with
    | nil =>
      rw [hE] at ih
      simp only [rleDecode] at ih
      simp [rleDecode, List.replicate, ← ih]
    | cons p tail =>
      obtain ⟨n, b2⟩ := p
      rw [hE] at ih
      by_cases hb : b = b2
      · subst hb
        simp only [if_pos rfl, rleDecode, List.replicate]
        simp only [rleDecode] at ih
        simp [ih]
      · simp only [if_neg hb, rleDecode, List.replicate]
        simp only [rleDecode] at ih
        simp [ih]

theorem rleUnflatten_rleFlatten (ps : List (Nat × Nat)) :
    rleUnflatten (rleFlatten ps) = ps := by
  induction ps with
  | nil => rfl
  | cons p tail ih =>
    obtain ⟨n, b⟩ := p
    simp only [rleFlatten, List.flatMap_cons, List.cons_append, List.nil_append]
    simp only [rleFlatten] at ih
    simp [rleUnflatten, ih]

theorem bytesToString_stringToBytes (s : String) :
    bytesToString (stringToBytes s) = s := by
  simp only [bytesToString, stringToBytes, List.map_map]
  have : (fun c => Char.ofNat (Char.toNat c)) = (id : Char → Char) := by
    funext c
    exact Char.ofNat_toNat c
  cases s with
  | mk data => simp [Function.comp_def, this]

theorem inflate_deflate (s : String) : inflate (deflate s) = s := by
  simp only [inflate, deflate, rleUnflatten_rleFlatten, rleDecode_rleEncode,
    bytesToString_stringToBytes]

end Bfetch

namespace Filters

theorem decAux_nil (acc : Nat) : decAux acc [] = acc := rfl

theorem decAux_cons (acc : Nat) (c : Char) (cs : List Char) :
    decAux acc (c :: cs) = decAux (acc * 10 + (c.toNat - 48)) cs := rfl

theorem digitChar_toNat {d : Nat} (hd : d < 10) : (Nat.digitChar d).toNat = 48 + d := by
  interval_cases d <;> rfl

theorem toDigitsCore_succ (fuel n : Nat) (ds : List Char) :
    Nat.toDigitsCore 10 (fuel + 1) n ds =
      if n / 10 = 0 then Nat.digitChar (n % 10) :: ds
      else Nat.toDigitsCore 10 fuel (n / 10) (Nat.digitChar (n % 10) :: ds) := rfl

theorem decAux_toDigitsCore (n : Nat) : ∀ (fuel : Nat) (acc : Nat) (ds : List Char),
    n < fuel →
    decAux acc (Nat.toDigitsCore 10 fuel n ds)
      = decAux (acc * 10 ^ (Nat.log 10 n + 1) + n) ds := by
  induction n using Nat.strong_induction_on with
  | _ n ih =>
    intro fuel acc ds hfuel
    match fuel, hfuel with
    | fuel + 1, hfuel =>
      by_cases h10 : n < 10
      · have hdiv : n / 10 = 0 := Nat.div_eq_of_lt h10
        have hmod : n % 10 = n := Nat.mod_eq_of_lt h10
        have hlog : Nat.log 10 n = 0 := Nat.log_eq_zero_iff.2 (Or.inl h10)
        rw [toDigitsCore_succ, if_pos hdiv, hmod, hlog, decAux_cons, pow_one]
        have harg : acc * 10 + ((Nat.digitChar n).toNat - 48) = acc * 10 + n := by
          rw [digitChar_toNat h10]
          omega
        rw [harg]
      · push_neg at h10
        have hdivpos : 0 < n / 10 := Nat.div_pos h10 (by norm_num)
        have hdivlt : n / 10 < n := Nat.div_lt_self (by omega) (by norm_num)
        have hfuel2 : n / 10 < fuel := by omega
        have hstep : Nat.toDigitsCore 10 (fuel + 1) n ds
            = Nat.toDigitsCore 10 fuel (n / 10) (Nat.digitChar (n % 10) :: ds) := by
          rw [toDigitsCore_succ, if_neg (by omega)]
        rw [hstep, ih (n / 10) hdivlt fuel acc (Nat.digitChar (n % 10) :: ds) hfuel2,
          decAux_cons]
        have hlog : Nat.log 10 n = Nat.log 10 (n / 10) + 1 := by
          have h1 := Nat.log_div_base 10 n
          have h2 : 0 < Nat.log 10 n := Nat.log_pos (by norm_num) h10
          omega
        rw [hlog, digitChar_toNat (Nat.mod_lt n (by norm_num))]
        have harg : (acc * 10 ^ (Nat.log 10 (n / 10) + 1) + n / 10) * 10
              + (48 + n % 10 - 48)
            = acc * 10 ^ (Nat.log 10 (n / 10) + 1 + 1) + n := by
          rw [pow_succ (10 : Nat) (Nat.log 10 (n / 10) + 1)]
          have hmul : (acc * 10 ^ (Nat.log 10 (n / 10) + 1) + n / 10) * 10
              = acc * (10 ^ (Nat.log 10 (n / 10) + 1) * 10) + (n / 10) * 10 := by
            ring
          rw [hmul]
          omega
        rw [harg]

theorem decAux_toDigits (n : Nat) : decAux 0 (Nat.toDigits 10 n) = n := by
  have h := decAux_toDigitsCore n (n + 1) 0 [] (Nat.lt_succ_self n)
  rw [show Nat.toDigits 10 n = Nat.toDigitsCore 10 (n + 1) n [] from rfl]
  rw [h, Nat.zero_mul, Nat.zero_add, decAux_nil]

theorem Nat_repr_injective {a b : Nat} (hab : Nat.repr a = Nat.repr b) : a = b := by
  have hdata : Nat.toDigits 10 a = Nat.toDigits 10 b := by
    have h := congrArg String.data hab
    simpa [Nat.repr, List.asString] using h
  have ha := decAux_toDigits a
  have hb := decAux_toDigits b
  rw [hdata] at ha
  omega

theorem refNameOf_inj {i j : Nat} (h : refNameOf i = refNameOf j) : i = j := by
  apply Nat_repr_injective
  have hdata := congrArg String.data h
  simp only [refNameOf, String.data_append] at hdata
  have hdd : (Nat.repr i).data = (Nat.repr j).data := List.append_cancel_left hdata
  exact congrArg String.mk hdd

end Filters

namespace Filters

theorem refNameOf_beq_false {i j : Nat} (hij : i ≠ j) :
    (refNameOf i == refNameOf j) = false := by
  rw [beq_eq_false_iff_ne]
  intro hcontra
  exact hij (refNameOf_inj hcontra)

theorem extractGo_cons_fst (i : Nat) (f : Filter) (rest : List Filter) :
    (extractGo i (f :: rest)).1 = (extractOne i f).1 :: (extractGo (i + 1) rest).1 := rfl

theorem extractGo_cons_snd (i : Nat) (f : Filter) (rest : List Filter) :
    (extractGo i (f :: rest)).2 = (extractOne i f).2.toList ++ (extractGo (i + 1) rest).2 := rfl

theorem extractGo_fst_length (l : List Filter) : ∀ i : Nat,
    (extractGo i l).1.length = l.length := by
  induction l with
  | nil => intro i; rfl
  | cons f rest ih =>
    intro i
    rw [extractGo_cons_fst, List.length_cons, List.length_cons, ih (i + 1)]

theorem extractGo_find (l : List Filter) :
    ∀ (i k : Nat) (hk : k < l.length) (m : FilterMeta) (idx : String),
      (l.get ⟨k, hk⟩).meta = some m → m.index = some idx →
      (extractGo i l).2.find? (fun ref => ref.name == refNameOf (i + k))
        = some { name := refNameOf (i + k), type := "index-pattern", id := idx } := by
  induction l with
  | nil => intro i k hk; exact absurd hk (by simp)
  | cons f rest ih =>
    intro i k hk m idx hmeta hidx
    rw [extractGo_cons_snd]
    cases k with
    | zero =>
      have hf : f.meta = some m := by simpa using hmeta
      obtain ⟨fmeta, frest⟩ := f
      simp only at hf
      subst hf
      simp only [extractOne, hidx, Option.toList_some, List.cons_append,
        Nat.add_zero]
      rw [List.find?_cons_of_pos _ (by simp)]
    | succ j =>
      have hj : j < rest.length := by simpa using Nat.lt_of_succ_lt_succ hk
      have hrest : (rest.get ⟨j, hj⟩).meta = some m := by
        simpa using hmeta
      have hshift : i + (j + 1) = (i + 1) + j := by omega
      obtain ⟨fmeta, frest⟩ := f
      cases fmeta with
      | none =>
        simp only [extractOne, Option.toList_none, List.nil_append]
        rw [hshift]
        exact ih (i + 1) j hj m idx hrest hidx
      | some m2 =>
        cases hI : m2.index with
        | none =>
          simp only [extractOne, hI, Option.toList_none, List.nil_append]
          rw [hshift]
          exact ih (i + 1) j hj m idx hrest hidx
        | some idx2 =>
          simp only [extractOne, hI, Option.toList_some, List.cons_append]
          have hbeq : (refNameOf i == refNameOf (i + (j + 1))) = false :=
            refNameOf_beq_false (by omega)
          simp only [List.find?, hbeq]
          rw [hshift]
          exact ih (i + 1) j hj m idx hrest hidx

theorem injectOne_extractOne (refs : List SavedObjectReference) (i : Nat) (f : Filter)
    (hsafe : ∀ m, f.meta = some m → m.indexRefName ≠ none → m.index ≠ none)
    (hfind : ∀ m idx, f.meta = some m → m.index = some idx →
      refs.find? (fun ref => ref.name == refNameOf i)
        = some { name := refNameOf i, type := "index-pattern", id := idx }) :
    injectOne refs (extractOne i f).1 = Except.ok (roundtripOne f) := by
  obtain ⟨fmeta, frest⟩ := f
  cases fmeta with
  | none => rfl
  | some m =>
    cases hI : m.index with
    | none =>
      have hrn : m.indexRefName = none := by
        by_contra hne
        exact (hsafe m rfl hne) hI
      simp only [extractOne, hI, injectOne, hrn, roundtripOne]
    | some idx =>
      have hfound := hfind m idx rfl hI
      simp only [extractOne, hI, injectOne, hfound, roundtripOne]

end Filters

namespace Filters

theorem exBind_ok {e a b : Type} (x : a) (g : a → Except e b) :
    (Except.ok x >>= g) = g x := rfl

theorem exBind_error {e a b : Type} (msg : e) (g : a → Except e b) :
    ((Except.error msg : Except e a) >>= g) = Except.error msg := rfl

theorem exPure {e a : Type} (x : a) : (pure x : Except e a) = Except.ok x := rfl

theorem mapM_injectOne_extractGo (refs : List SavedObjectReference)
    (l : List Filter) :
    ∀ i : Nat,
    (∀ f ∈ l, ∀ m, f.meta = some m → m.indexRefName ≠ none → m.index ≠ none) →
    (∀ (k : Nat) (hk : k < l.length) (m : FilterMeta) (idx : String),
      (l.get ⟨k, hk⟩).meta = some m → m.index = some idx →
      refs.find? (fun ref => ref.name == refNameOf (i + k))
        = some { name := refNameOf (i + k), type := "index-pattern", id := idx }) →
    ((extractGo i l).1).mapM (injectOne refs) = Except.ok (l.map roundtripOne) := by
  induction l with
  | nil => intro i _ _; rfl
  | cons f rest ih =>
    intro i hsafe hfind
    rw [extractGo_cons_fst, List.mapM_cons]
    have h0 : injectOne refs (extractOne i f).1 = Except.ok (roundtripOne f) := by
      apply injectOne_extractOne
      · exact fun m hm => hsafe f (List.mem_cons_self f rest) m hm
      · intro m idx hm hidx
        have h := hfind 0 (by simp) m idx (by simpa using hm) hidx
        simpa using h
    have h1 : ((extractGo (i + 1) rest).1).mapM (injectOne refs)
        = Except.ok (rest.map roundtripOne) := by
      apply ih (i + 1)
      · exact fun g hg => hsafe g (List.mem_cons_of_mem f hg)
      · intro k hk m idx hm hidx
        have hk2 : k + 1 < (f :: rest).length := by simpa using Nat.succ_lt_succ hk
        have hget : ((f :: rest).get ⟨k + 1, hk2⟩).meta = some m := by simpa using hm
        have h := hfind (k + 1) hk2 m idx hget hidx
        have hik : i + (k + 1) = (i + 1) + k := by omega
        rw [hik] at h
        exact h
    rw [h0, exBind_ok, h1, exBind_ok, exPure, List.map_cons]

theorem mapM_injectOne_error_iff (refs : List SavedObjectReference) :
    ∀ l : List Filter,
      (∃ msg, l.mapM (injectOne refs) = Except.error msg)
        ↔ ∃ f ∈ l, missingReference refs f := by
  intro l
  induction l with
  | nil =>
    constructor
    · intro ⟨msg, h⟩
      simp only [List.mapM_nil, exPure] at h
      exact absurd h (by simp)
    · intro ⟨f, hf, _⟩
      exact absurd hf (by simp)
  | cons f rest ih =>
    rw [List.mapM_cons]
    obtain ⟨fmeta, frest⟩ := f
    cases fmeta with
    | none =>
      rw [show injectOne refs ⟨none, frest⟩ = Except.ok ⟨none, frest⟩ from rfl, exBind_ok]
      constructor
      · intro ⟨msg, h⟩
        cases hrest : rest.mapM (injectOne refs) with
        | error e =>
          obtain ⟨g, hg, hmiss⟩ := ih.1 ⟨e, hrest⟩
          exact ⟨g, List.mem_cons_of_mem _ hg, hmiss⟩
        | ok bs =>
          rw [hrest, exBind_ok, exPure] at h
          exact absurd h (by simp)
      · intro ⟨g, hg, hmiss⟩
        rcases List.mem_cons.1 hg with hgf | hgrest
        · subst hgf
          obtain ⟨m, hm, _⟩ := hmiss
          exact absurd hm (by simp)
        · obtain ⟨msg, hmsg⟩ := ih.2 ⟨g, hgrest, hmiss⟩
          rw [hmsg, exBind_error]
          exact ⟨msg, rfl⟩
    | some m =>
      cases hrn : m.indexRefName with
      | none =>
        have hinj : injectOne refs ⟨some m, frest⟩ = Except.ok ⟨some m, frest⟩ := by
          simp only [injectOne, hrn]
        rw [hinj, exBind_ok]
        constructor
        · intro ⟨msg, h⟩
          cases hrest : rest.mapM (injectOne refs) with
          | error e =>
            obtain ⟨g, hg, hmiss⟩ := ih.1 ⟨e, hrest⟩
            exact ⟨g, List.mem_cons_of_mem _ hg, hmiss⟩
          | ok bs =>
            rw [hrest, exBind_ok, exPure] at h
            exact absurd h (by simp)
        · intro ⟨g, hg, hmiss⟩
          rcases List.mem_cons.1 hg with hgf | hgrest
          · subst hgf
            obtain ⟨m2, hm2, rn, hrn2, _⟩ := hmiss
            have : m2 = m := by
              have : some m2 = some m := by simpa using hm2.symm
              simpa using this
            rw [this] at hrn2
            rw [hrn] at hrn2
            exact absurd hrn2 (by simp)
          · obtain ⟨msg, hmsg⟩ := ih.2 ⟨g, hgrest, hmiss⟩
            rw [hmsg, exBind_error]
            exact ⟨msg, rfl⟩
      | some rn =>
        cases hfound : refs.find? (fun ref => ref.name == rn) with
        | none =>
          have hinj : injectOne refs ⟨some m, frest⟩
              = Except.error ("Could not find reference for " ++ rn) := by
            simp only [injectOne, hrn, hfound]
          rw [hinj, exBind_error]
          constructor
          · intro _
            exact ⟨⟨some m, frest⟩, List.mem_cons_self _ _, m, rfl, rn, hrn, hfound⟩
          · intro _
            exact ⟨"Could not find reference for " ++ rn, rfl⟩
        | some ref =>
          have hinj : injectOne refs ⟨some m, frest⟩
              = Except.ok ⟨some { m with indexRefName := none, index := some ref.id },
                  frest⟩ := by
            simp only [injectOne, hrn, hfound]
          rw [hinj, exBind_ok]
          constructor
          · intro ⟨msg, h⟩
            cases hrest : rest.mapM (injectOne refs) with
            | error e =>
              obtain ⟨g, hg, hmiss⟩ := ih.1 ⟨e, hrest⟩
              exact ⟨g, List.mem_cons_of_mem _ hg, hmiss⟩
            | ok bs =>
              rw [hrest, exBind_ok, exPure] at h
              exact absurd h (by simp)
          · intro ⟨g, hg, hmiss⟩
            rcases List.mem_cons.1 hg with hgf | hgrest
            · subst hgf
              obtain ⟨m2, hm2, rn2, hrn2, hnone⟩ := hmiss
              have hm2m : m2 = m := by
                have : some m2 = some m := by simpa using hm2.symm
                simpa using this
              rw [hm2m, hrn] at hrn2
              have : rn2 = rn := by simpa using hrn2.symm
              rw [this] at hnone
              rw [hfound] at hnone
              exact absurd hnone (by simp)
            · obtain ⟨msg, hmsg⟩ := ih.2 ⟨g, hgrest, hmiss⟩
              rw [hmsg, exBind_error]
              exact ⟨msg, rfl⟩

theorem mapM_injectOne_error_msg (refs : List SavedObjectReference) :
    ∀ (l : List Filter) (msg : String),
      l.mapM (injectOne refs) = Except.error msg →
      ∃ rn, msg = "Could not find reference for " ++ rn ∧
        ∃ f ∈ l, ∃ m, f.meta = some m ∧ m.indexRefName = some rn ∧
          refs.find? (fun ref => ref.name == rn) = none := by
  intro l
  induction l with
  | nil =>
    intro msg h
    simp only [List.mapM_nil, exPure] at h
    exact absurd h (by simp)
  | cons f rest ih =>
    intro msg h
    rw [List.mapM_cons] at h
    cases hinj : injectOne refs f with
    | error e =>
      rw [hinj, exBind_error] at h
      have hmsg : e = msg := by simpa using h
      obtain ⟨fmeta, frest⟩ := f
      cases fmeta with
      | none =>
        exact absurd hinj (by simp [injectOne])
      | some m =>
        cases hrn : m.indexRefName with
        | none =>
          have : injectOne refs ⟨some m, frest⟩ = Except.ok ⟨some m, frest⟩ := by
            simp only [injectOne, hrn]
          rw [this] at hinj
          exact absurd hinj (by simp)
        | some rn =>
          cases hfound : refs.find? (fun ref => ref.name == rn) with
          | some ref =>
            have : injectOne refs ⟨some m, frest⟩
                = Except.ok
                  ⟨some { m with indexRefName := none, index := some ref.id }, frest⟩ := by
              simp only [injectOne, hrn, hfound]
            rw [this] at hinj
            exact absurd hinj (by simp)
          | none =>
            have hish : injectOne refs ⟨some m, frest⟩
                = Except.error ("Could not find reference for " ++ rn) := by
              simp only [injectOne, hrn, hfound]
            rw [hish] at hinj
            have he : e = "Could not find reference for " ++ rn := by
              simpa using hinj.symm
            refine ⟨rn, by rw [← hmsg, he], ⟨some m, frest⟩,
              List.mem_cons_self _ _, m, rfl, hrn, hfound⟩
    | ok b =>
      rw [hinj, exBind_ok] at h
      cases hrest : rest.mapM (injectOne refs) with
      | ok bs =>
        rw [hrest, exBind_ok, exPure] at h
        exact absurd h (by simp)
      | error e =>
        rw [hrest, exBind_error] at h
        have hmsg : e = msg := by simpa using h
        obtain ⟨rn, hrn, g, hg, hrest2⟩ := ih e hrest
        exact ⟨rn, by rw [← hmsg, hrn], g, List.mem_cons_of_mem _ hg, hrest2⟩

theorem mapM_injectOne_ok_length (refs : List SavedObjectReference) :
    ∀ (l : List Filter) (out : List Filter),
      l.mapM (injectOne refs) = Except.ok out → out.length = l.length := by
  intro l
  induction l with
  | nil =>
    intro out h
    simp only [List.mapM_nil, exPure] at h
    have h2 : ([] : List Filter) = out := by simpa using h
    simp [← h2]
  | cons f rest ih =>
    intro out h
    rw [List.mapM_cons] at h
    cases hinj : injectOne refs f with
    | error e =>
      rw [hinj, exBind_error] at h
      exact absurd h (by simp)
    | ok b =>
      rw [hinj, exBind_ok] at h
      cases hrest : rest.mapM (injectOne refs) with
      | error e =>
        rw [hrest, exBind_error] at h
        exact absurd h (by simp)
      | ok bs =>
        rw [hrest, exBind_ok, exPure] at h
        have h2 : b :: bs = out := by simpa using h
        rw [← h2, List.length_cons, List.length_cons, ih bs hrest]

end Filters

/-!
The claim theorems.
-/

/-- C1, counterexample: the claim says compression is on by default and is
disabled exactly when `x-chunk-encoding: deflate` is present.  On the code the
opposite holds at this input: the header is present with value `deflate`, yet
`getCompressionDisabled` is `false` (compression on), and with no headers at
all `getCompressionDisabled` is `true` (compression off). -/
theorem claim_C1_counterexample :
    Bfetch.headerValue [("x-chunk-encoding", "deflate")] "x-chunk-encoding"
        = some "deflate"
      ∧ Bfetch.getCompressionDisabled [("x-chunk-encoding", "deflate")] = false
      ∧ Bfetch.getCompressionDisabled [] = true :=
  ⟨rfl, rfl, rfl⟩

/-- C1, amended: compression of the response stream is disabled by default,
and it is enabled exactly when the request carries the header
`x-chunk-encoding` with the value `deflate` (header present with that value
implies compression; header absent or with any other value implies no
compression). -/
theorem claim_C1_theorem (headers : List (String × String)) :
    Bfetch.getCompressionDisabled headers = false
      ↔ Bfetch.headerValue headers "x-chunk-encoding" = some "deflate" := by
  simp [Bfetch.getCompressionDisabled]

/-- C2: for every batch of N items, when every per-item handler settles (the
completion order is a permutation of the batch positions, i.e. absent peer
disconnect), the response stream contains exactly N records — regardless of
whether the individual handlers succeed or fail. -/
theorem claim_C2_theorem {D R : Type} (onBatchItem : D → Except Bfetch.JsVal R)
    (batch : List D) (order : List Nat)
    (hperm : order.Perm (List.range batch.length)) :
    (Bfetch.getResponseStream onBatchItem batch order).length = batch.length := by
  have hbound : ∀ i ∈ order, i < batch.length := by
    intro i hi
    simpa using hperm.mem_iff.1 hi
  rw [Bfetch.getResponseStream, Bfetch.mapS_length _ _ _ hbound,
    hperm.length_eq, List.length_range]

/-- C2, witness at a concrete batch of two items, one succeeding and one
failing, completing in reverse order. -/
theorem claim_C2_witness :
    ([1, 0] : List Nat).Perm (List.range 2)
      ∧ (Bfetch.getResponseStream
          (fun n => if n % 2 = 0 then Except.ok n
            else Except.error (Bfetch.JsVal.str "boom"))
          [10, 21] [1, 0]).length = 2 :=
  ⟨by decide,
   claim_C2_theorem
     (fun n => if n % 2 = 0 then Except.ok n
       else Except.error (Bfetch.JsVal.str "boom"))
     [10, 21] [1, 0] (by decide)⟩

/-- C3: when every handler settles, the multiset of emitted record ids is
exactly the set of batch positions 0..N-1 — no id twice, no position missing —
and every record is the dispatch of the input item sitting at its id, so ids
are assigned at submission time and never reused. -/
theorem claim_C3_theorem {D R : Type} (onBatchItem : D → Except Bfetch.JsVal R)
    (batch : List D) (order : List Nat)
    (hperm : order.Perm (List.range batch.length)) :
    ((Bfetch.getResponseStream onBatchItem batch order).map
        (fun rec => rec.id)).Perm (List.range batch.length)
      ∧ ∀ rec ∈ Bfetch.getResponseStream onBatchItem batch order,
          ∃ hi : rec.id < batch.length,
            rec = Bfetch.dispatchBatchItem onBatchItem
              (batch.get ⟨rec.id, hi⟩) rec.id := by
  have hbound : ∀ i ∈ order, i < batch.length := by
    intro i hi
    simpa using hperm.mem_iff.1 hi
  constructor
  · rw [Bfetch.getResponseStream,
      Bfetch.mapS_map_proj batch _ _ (Bfetch.dispatchBatchItem_id onBatchItem) order hbound]
    exact hperm
  · intro rec hrec
    obtain ⟨i, _, hi, heq⟩ := Bfetch.mem_mapS hrec
    have hid : rec.id = i := by
      rw [heq, Bfetch.dispatchBatchItem_id]
    refine ⟨by rw [hid]; exact hi, ?_⟩
    simp only [hid]
    exact heq

/-- C3, witness at a concrete two-item batch completing in reverse order. -/
theorem claim_C3_witness :
    ([1, 0] : List Nat).Perm (List.range 2)
      ∧ (((Bfetch.getResponseStream
            (fun n => if n % 2 = 0 then Except.ok n
              else Except.error (Bfetch.JsVal.str "boom"))
            [10, 21] [1, 0]).map (fun rec => rec.id)).Perm (List.range 2)
          ∧ ∀ rec ∈ Bfetch.getResponseStream
              (fun n => if n % 2 = 0 then Except.ok n
                else Except.error (Bfetch.JsVal.str "boom"))
              [10, 21] [1, 0],
              ∃ hi : rec.id < 2,
                rec = Bfetch.dispatchBatchItem
                  (fun n => if n % 2 = 0 then Except.ok n
                    else Except.error (Bfetch.JsVal.str "boom"))
                  (([10, 21] : List Nat).get ⟨rec.id, hi⟩) rec.id) :=
  ⟨by decide,
   claim_C3_theorem
     (fun n => if n % 2 = 0 then Except.ok n
       else Except.error (Bfetch.JsVal.str "boom"))
     [10, 21] [1, 0] (by decide)⟩

/-- C4: if the handler of the item at position i throws/rejects with value e,
then (when every handler settles) the stream still contains one record per
item — the failure aborts neither the siblings nor stream termination — the
record with id i is the Failure record whose error is exactly
`normalizeError e` (the fixed-shape value, not the raw thrown value), and no
other record carries id i. -/
theorem claim_C4_theorem {D R : Type} (onBatchItem : D → Except Bfetch.JsVal R)
    (batch : List D) (order : List Nat)
    (hperm : order.Perm (List.range batch.length))
    (i : Nat) (hi : i < batch.length) (e : Bfetch.JsVal)
    (hfail : onBatchItem (batch.get ⟨i, hi⟩) = Except.error e) :
    (Bfetch.getResponseStream onBatchItem batch order).length = batch.length
      ∧ ({ id := i, result := none, error := some (Bfetch.normalizeError e) } :
            Bfetch.BatchResponseItem R Bfetch.ErrorLike)
          ∈ Bfetch.getResponseStream onBatchItem batch order
      ∧ ∀ rec ∈ Bfetch.getResponseStream onBatchItem batch order, rec.id = i →
          rec = { id := i, result := none,
                  error := some (Bfetch.normalizeError e) } := by
  have hbound : ∀ j ∈ order, j < batch.length := by
    intro j hj
    simpa using hperm.mem_iff.1 hj
  have hdisp : Bfetch.dispatchBatchItem onBatchItem (batch.get ⟨i, hi⟩) i
      = { id := i, result := none, error := some (Bfetch.normalizeError e) } := by
    unfold Bfetch.dispatchBatchItem
    rw [hfail]
  refine ⟨?_, ?_, ?_⟩
  · rw [Bfetch.getResponseStream, Bfetch.mapS_length _ _ _ hbound,
      hperm.length_eq, List.length_range]
  · have hmem : i ∈ order := hperm.mem_iff.2 (List.mem_range.2 hi)
    have := Bfetch.mapS_mem_of_mem batch
      (Bfetch.dispatchBatchItem onBatchItem) hmem hi
    rw [hdisp] at this
    exact this
  · intro rec hrec hid
    obtain ⟨j, _, hj, heq⟩ := Bfetch.mem_mapS hrec
    have hji : j = i := by
      rw [heq, Bfetch.dispatchBatchItem_id] at hid
      exact hid
    subst hji
    rw [heq, hdisp]

/-- C4, witness: in the two-item batch the handler of item 1 rejects, yet both
records are present, and the id-1 record is the normalized failure record. -/
theorem claim_C4_witness :
    ([1, 0] : List Nat).Perm (List.range 2)
      ∧ ((Bfetch.getResponseStream
            (fun n => if n % 2 = 0 then Except.ok n
              else Except.error (Bfetch.JsVal.str "boom"))
            [10, 21] [1, 0]).length = 2
          ∧ ({ id := 1, result := none,
               error := some (Bfetch.normalizeError (Bfetch.JsVal.str "boom")) } :
                Bfetch.BatchResponseItem Nat Bfetch.ErrorLike)
              ∈ Bfetch.getResponseStream
                  (fun n => if n % 2 = 0 then Except.ok n
                    else Except.error (Bfetch.JsVal.str "boom"))
                  [10, 21] [1, 0]
          ∧ ∀ rec ∈ Bfetch.getResponseStream
                (fun n => if n % 2 = 0 then Except.ok n
                  else Except.error (Bfetch.JsVal.str "boom"))
                [10, 21] [1, 0], rec.id = 1 →
              rec = { id := 1, result := none,
                      error := some (Bfetch.normalizeError (Bfetch.JsVal.str "boom")) }) :=
  ⟨by decide,
   claim_C4_theorem
     (fun n => if n % 2 = 0 then Except.ok n
       else Except.error (Bfetch.JsVal.str "boom"))
     [10, 21] [1, 0] (by decide) 1 Nat.one_lt_two (Bfetch.JsVal.str "boom") rfl⟩

/-- C5: the emitted record sequence equals the handler completion order, not
the submission order: the k-th record of the stream carries the id of the k-th
handler to settle (the id sequence of the output is literally `order`), so a
record of a later-submitted but earlier-settling item precedes that of an
earlier-submitted one. -/
theorem claim_C5_theorem {D R : Type} (onBatchItem : D → Except Bfetch.JsVal R)
    (batch : List D) (order : List Nat)
    (hperm : order.Perm (List.range batch.length)) :
    (Bfetch.getResponseStream onBatchItem batch order).map (fun rec => rec.id)
      = order := by
  have hbound : ∀ i ∈ order, i < batch.length := by
    intro i hi
    simpa using hperm.mem_iff.1 hi
  rw [Bfetch.getResponseStream,
    Bfetch.mapS_map_proj batch _ _ (Bfetch.dispatchBatchItem_id onBatchItem) order hbound]

/-- C5, witness: item 1 settles before item 0, and the stream lists id 1
before id 0 even though item 0 was submitted first. -/
theorem claim_C5_witness :
    ([1, 0] : List Nat).Perm (List.range 2)
      ∧ (Bfetch.getResponseStream
          (fun n => if n % 2 = 0 then Except.ok n
            else Except.error (Bfetch.JsVal.str "boom"))
          [10, 21] [1, 0]).map (fun rec => rec.id) = [1, 0] :=
  ⟨by decide,
   claim_C5_theorem
     (fun n => if n % 2 = 0 then Except.ok n
       else Except.error (Bfetch.JsVal.str "boom"))
     [10, 21] [1, 0] (by decide)⟩

/-- C6: the logical record sequence is independent of the per-request
compression flag: decompressing the body produced with compression enabled and
parsing it yields exactly the lines parsed from the body produced with
compression disabled, for the same batch input. -/
theorem claim_C6_theorem {D R : Type}
    (encode : Bfetch.BatchResponseItem R Bfetch.ErrorLike → String)
    (onBatchItem : D → Except Bfetch.JsVal R) (batch : List D)
    (order : List Nat) :
    Bfetch.parseLines (Bfetch.inflate (Bfetch.createStream encode
        (Bfetch.getResponseStream onBatchItem batch order) false))
      = Bfetch.parseLines (Bfetch.bytesToString (Bfetch.createStream encode
        (Bfetch.getResponseStream onBatchItem batch order) true)) := by
  rw [show Bfetch.createStream encode
        (Bfetch.getResponseStream onBatchItem batch order) false
      = Bfetch.deflate (Bfetch.serializeRecords encode
        (Bfetch.getResponseStream onBatchItem batch order)) from rfl,
    show Bfetch.createStream encode
        (Bfetch.getResponseStream onBatchItem batch order) true
      = Bfetch.stringToBytes (Bfetch.serializeRecords encode
        (Bfetch.getResponseStream onBatchItem batch order)) from rfl,
    Bfetch.inflate_deflate, Bfetch.bytesToString_stringToBytes]

/-- C7: every streaming response — the generic streaming route and the batch
route built on it, for any request headers, body and handler outcomes — is an
`ok` response with HTTP status 200 and exactly the headers
`Content-Type: application/x-ndjson`, `Connection: keep-alive` and
`Transfer-Encoding: chunked`; handler failures only affect the body. -/
theorem claim_C7_theorem {B O D R : Type} (encode : O → String)
    (getRespStream : B → List O) (requestHeaders : List (String × String))
    (requestBody : B)
    (encodeB : Bfetch.BatchResponseItem R Bfetch.ErrorLike → String)
    (onBatchItem : D → Except Bfetch.JsVal R) (order : List Nat)
    (batch : List D) :
    ((Bfetch.streamingResponseRoute encode getRespStream requestHeaders
        requestBody).status = 200
      ∧ (Bfetch.streamingResponseRoute encode getRespStream requestHeaders
          requestBody).headers
        = [("Content-Type", "application/x-ndjson"),
           ("Connection", "keep-alive"),
           ("Transfer-Encoding", "chunked")])
    ∧ ((Bfetch.batchProcessingRoute encodeB onBatchItem order requestHeaders
          batch).status = 200
      ∧ (Bfetch.batchProcessingRoute encodeB onBatchItem order requestHeaders
          batch).headers
        = [("Content-Type", "application/x-ndjson"),
           ("Connection", "keep-alive"),
           ("Transfer-Encoding", "chunked")]) :=
  ⟨⟨rfl, rfl⟩, ⟨rfl, rfl⟩⟩

/-- C8: every record emitted for a batch item has exactly one of the two
shapes: a `result` field and no `error` field (handler success) or an `error`
field and no `result` field (handler failure); never both. -/
theorem claim_C8_theorem {D R : Type} (onBatchItem : D → Except Bfetch.JsVal R)
    (batch : List D) (order : List Nat) :
    ∀ rec ∈ Bfetch.getResponseStream onBatchItem batch order,
      (rec.result.isSome ∧ rec.error = none)
        ∨ (rec.result = none ∧ rec.error.isSome) := by
  intro rec hrec
  obtain ⟨i, _, hi, heq⟩ := Bfetch.mem_mapS hrec
  rw [heq]
  unfold Bfetch.dispatchBatchItem
  cases onBatchItem (batch.get ⟨i, hi⟩) with
  | ok r => left; exact ⟨rfl, rfl⟩
  | error e => right; exact ⟨rfl, rfl⟩

/-- C8, witness: a concrete success record of the two-item batch has a
`result` and no `error`. -/
theorem claim_C8_witness :
    (({ id := 0, result := some 10, error := none } :
        Bfetch.BatchResponseItem Nat Bfetch.ErrorLike)
      ∈ Bfetch.getResponseStream
          (fun n => if n % 2 = 0 then Except.ok n
            else Except.error (Bfetch.JsVal.str "boom"))
          [10, 21] [1, 0])
    ∧ ((({ id := 0, result := some 10, error := none } :
          Bfetch.BatchResponseItem Nat Bfetch.ErrorLike).result.isSome
        ∧ ({ id := 0, result := some 10, error := none } :
          Bfetch.BatchResponseItem Nat Bfetch.ErrorLike).error = none)
      ∨ (({ id := 0, result := some 10, error := none } :
          Bfetch.BatchResponseItem Nat Bfetch.ErrorLike).result = none
        ∧ ({ id := 0, result := some 10, error := none } :
          Bfetch.BatchResponseItem Nat Bfetch.ErrorLike).error.isSome)) :=
  ⟨by decide,
   claim_C8_theorem
     (fun n => if n % 2 = 0 then Except.ok n
       else Except.error (Bfetch.JsVal.str "boom"))
     [10, 21] [1, 0] _ (by decide)⟩

/-- C9, counterexample: the claim promises that a filter without `meta.index`
passes through extract-then-inject unchanged, for every list of filters.  For
a filter that carries a dangling `meta.indexRefName` (and no `meta.index`),
extraction returns it unchanged but injection throws, so the round trip
produces an error instead of the unchanged filter. -/
theorem claim_C9_counterexample :
    (∀ m : Filters.FilterMeta,
      ({ meta := some { index := none, indexRefName := some "someRef",
                        value := none, rest := [] }, rest := [] } :
          Filters.Filter).meta = some m → m.index = none)
    ∧ Filters.injectFilterReferences
        (Filters.extractFilterReferences
          [{ meta := some { index := none, indexRefName := some "someRef",
                            value := none, rest := [] }, rest := [] }]).1
        (Filters.extractFilterReferences
          [{ meta := some { index := none, indexRefName := some "someRef",
                            value := none, rest := [] }, rest := [] }]).2
      = Except.error "Could not find reference for someRef" := by
  constructor
  · intro m hm
    injection hm with h2
    rw [← h2]
  · rfl

/-- C9, amended: for every list of filters in which no filter carries a
`meta.indexRefName` without also having `meta.index`, applying
`extractFilterReferences` and then `injectFilterReferences` on the resulting
persistable filters and references succeeds and yields, for each filter that
had `meta.index`, a filter whose `meta.index` equals the original and which
carries no `meta.indexRefName` (with `meta.value` deleted by extraction and
not restored); filters without `meta` or without `meta.index` pass through
both functions unchanged (`roundtripOne` states this per filter). -/
theorem claim_C9_theorem (filters : List Filters.Filter)
    (hsafe : ∀ f ∈ filters, ∀ m, f.meta = some m →
      m.indexRefName ≠ none → m.index ≠ none) :
    Filters.injectFilterReferences
        (Filters.extractFilterReferences filters).1
        (Filters.extractFilterReferences filters).2
      = Except.ok (filters.map Filters.roundtripOne) :=
  Filters.mapM_injectOne_extractGo (Filters.extractFilterReferences filters).2
    filters 0 hsafe
    (fun k hk m idx hmeta hidx =>
      Filters.extractGo_find filters 0 k hk m idx hmeta hidx)

/-- C9, witness: a concrete round trip over one filter with `meta.index` and
one filter without `meta`; the first comes back with its index restored,
`indexRefName` absent and `value` dropped, the second is unchanged. -/
theorem claim_C9_witness :
    Filters.injectFilterReferences
        (Filters.extractFilterReferences
          [{ meta := some { index := some "pattern-a", indexRefName := none,
                            value := some "v", rest := [("negate", "false")] },
             rest := [("query", "q")] },
           { meta := none, rest := [("x", "y")] }]).1
        (Filters.extractFilterReferences
          [{ meta := some { index := some "pattern-a", indexRefName := none,
                            value := some "v", rest := [("negate", "false")] },
             rest := [("query", "q")] },
           { meta := none, rest := [("x", "y")] }]).2
      = Except.ok
          [{ meta := some { index := some "pattern-a", indexRefName := none,
                            value := none, rest := [("negate", "false")] },
             rest := [("query", "q")] },
           { meta := none, rest := [("x", "y")] }] :=
  claim_C9_theorem
    [{ meta := some { index := some "pattern-a", indexRefName := none,
                      value := some "v", rest := [("negate", "false")] },
       rest := [("query", "q")] },
     { meta := none, rest := [("x", "y")] }]
    (by
      intro f hf m hm hrn
      rcases List.mem_cons.1 hf with h | h
      · subst h
        injection hm with h2
        rw [← h2]
        simp
      · rcases List.mem_cons.1 h with h3 | h3
        · subst h3
          exact absurd hm (by simp)
        · exact absurd h3 (by simp))

/-- C10: `injectFilterReferences` fails if and only if some input filter has a
`meta.indexRefName` for which no reference in the list has a matching name;
any thrown message is exactly `Could not find reference for ` followed by such
a missing reference name; and whenever it succeeds it returns exactly one
output filter per input filter. -/
theorem claim_C10_theorem (filters : List Filters.Filter)
    (refs : List Filters.SavedObjectReference) :
    ((∃ msg, Filters.injectFilterReferences filters refs = Except.error msg)
        ↔ ∃ f ∈ filters, Filters.missingReference refs f)
    ∧ (∀ msg, Filters.injectFilterReferences filters refs = Except.error msg →
        ∃ rn, msg = "Could not find reference for " ++ rn ∧
          ∃ f ∈ filters, ∃ m, f.meta = some m ∧ m.indexRefName = some rn ∧
            refs.find? (fun ref => ref.name == rn) = none)
    ∧ (∀ out, Filters.injectFilterReferences filters refs = Except.ok out →
        out.length = filters.length) :=
  ⟨Filters.mapM_injectOne_error_iff refs filters,
   fun msg h => Filters.mapM_injectOne_error_msg refs filters msg h,
   fun out h => Filters.mapM_injectOne_ok_length refs filters out h⟩

/-- C10, witness: with an empty reference list, a filter naming `x` makes
injection throw; the theorem's iff instantiates to this concrete failure. -/
theorem claim_C10_witness :
    ∃ msg, Filters.injectFilterReferences
        [{ meta := some { index := none, indexRefName := some "x",
                          value := none, rest := [] }, rest := [] }] []
      = Except.error msg :=
  (claim_C10_theorem
    [{ meta := some { index := none, indexRefName := some "x",
                      value := none, rest := [] }, rest := [] }] []).1.mpr
    ⟨{ meta := some { index := none, indexRefName := some "x",
                      value := none, rest := [] }, rest := [] },
     List.mem_cons_self _ _,
     { index := none, indexRefName := some "x", value := none, rest := [] },
     rfl, "x", rfl, rfl⟩
